import Mathlib

/-!
Verification of the Sudoku engine (Validator, Solver, Generator) of the
Ignyos/Sudoku repository.  The JavaScript source is shallowly embedded:
grids are lists of rows of naturals (0 denotes an empty cell), in-place
mutation becomes explicit state passing, the `Math.random` stream becomes
an explicit function `Nat → Nat` together with a threaded draw index, and
the unbounded recursion of the backtracking search becomes fuel-indexed
recursion (fuel 82 is enough for a 9x9 grid, one frame per empty cell
plus one).
-/

namespace Sudoku

/-- A grid is a list of rows; the engine treats it as a 9x9 matrix of
naturals in [0,9], 0 meaning empty (`src/js` grids are arrays of arrays). -/
abbrev Grid := List (List Nat)

/-- Row `r` of a grid, the empty list when `r` is out of range
(JS `grid[row]`). -/
def getRow (g : Grid) (r : Nat) : List Nat := (g.get? r).getD []

/-- Cell read `grid[row][col]`, defaulting to 0 out of range. -/
def getCell (g : Grid) (r c : Nat) : Nat := ((getRow g r).get? c).getD 0

/-- Cell write `grid[row][col] = v`; a no-op out of range, matching the
fact that the engine only ever writes in-range cells of 9x9 grids. -/
def setCell (g : Grid) (r c v : Nat) : Grid := g.set r ((getRow g r).set c v)

/-- The grid has 9 rows of 9 entries each. -/
def WellFormed9 (g : Grid) : Prop := g.length = 9 ∧ ∀ row ∈ g, row.length = 9

/-- Every entry of the grid lies in [0,9]. -/
def EntriesBounded (g : Grid) : Prop := ∀ row ∈ g, ∀ x ∈ row, x ≤ 9

instance decWellFormed9 (g : Grid) : Decidable (WellFormed9 g) :=
  inferInstanceAs (Decidable (g.length = 9 ∧ ∀ row ∈ g, row.length = 9))

instance decEntriesBounded (g : Grid) : Decidable (EntriesBounded g) :=
  inferInstanceAs (Decidable (∀ row ∈ g, ∀ x ∈ row, x ≤ 9))

theorem listSet_oob {α : Type _} (l : List α) (a : α) :
    ∀ i, l.length ≤ i → l.set i a = l := by
  induction l with
  | nil => intro i _; rfl
  | cons x xs ih =>
    intro i hi
    cases i with
    | zero => simp at hi
    | succ n => simpa using ih n (by simpa using hi)

theorem listGet_set_ne {α : Type _} (l : List α) (a : α) :
    ∀ i j, i ≠ j → (l.set i a).get? j = l.get? j := by
  induction l with
  | nil => intro i j _; rfl
  | cons x xs ih =>
    intro i j hij
    cases i with
    | zero =>
      cases j with
      | zero => exact absurd rfl hij
      | succ m => rfl
    | succ n =>
      cases j with
      | zero => rfl
      | succ m => simpa using ih n m (by omega)

theorem listGet_set_self {α : Type _} (l : List α) (a : α) :
    ∀ i, i < l.length → (l.set i a).get? i = some a := by
  induction l with
  | nil => intro i hi; simp at hi
  | cons x xs ih =>
    intro i hi
    cases i with
    | zero => rfl
    | succ n => simpa using ih n (by simpa using hi)

theorem listSet_set {α : Type _} (l : List α) (a b : α) :
    ∀ i, (l.set i a).set i b = l.set i b := by
  induction l with
  | nil => intro i; rfl
  | cons x xs ih =>
    intro i
    cases i with
    | zero => rfl
    | succ n =>
      show x :: (xs.set n a).set n b = x :: xs.set n b
      rw [ih n]

theorem listSet_get_same {α : Type _} (l : List α) :
    ∀ i a, l.get? i = some a → l.set i a = l := by
  induction l with
  | nil => intro i a h; simp [List.get?] at h
  | cons x xs ih =>
    intro i a h
    cases i with
    | zero => simp [List.get?] at h; simp [h]
    | succ n => simpa using ih n a (by simpa using h)

theorem getRow_oob (g : Grid) (r : Nat) (h : g.length ≤ r) : getRow g r = [] := by
  unfold getRow
  rw [List.get?_eq_none.mpr h]
  rfl

theorem setCell_oob_row (g : Grid) (r c v : Nat) (h : g.length ≤ r) :
    setCell g r c v = g := listSet_oob g _ r h

theorem getRow_setCell_self (g : Grid) (r c v : Nat) (hr : r < g.length) :
    getRow (setCell g r c v) r = (getRow g r).set c v := by
  unfold setCell getRow
  rw [listGet_set_self g _ r hr]
  rfl

theorem getCell_setCell_ne (g : Grid) (r c v r' c' : Nat)
    (h : r' ≠ r ∨ c' ≠ c) : getCell (setCell g r c v) r' c' = getCell g r' c' := by
  by_cases hrr : r' = r
  · have hcc : c' ≠ c := by
      rcases h with h | h
      · exact absurd hrr h
      · exact h
    rcases Nat.lt_or_ge r g.length with hr | hr
    · unfold getCell
      rw [hrr, getRow_setCell_self g r c v hr,
        listGet_set_ne _ _ c c' (Ne.symm hcc)]
    · rw [setCell_oob_row g r c v hr]
  · unfold getCell getRow setCell
    rw [listGet_set_ne g _ r r' (Ne.symm hrr)]

theorem getCell_setCell_self (g : Grid) (r c v : Nat)
    (hr : r < g.length) (hc : c < (getRow g r).length) :
    getCell (setCell g r c v) r c = v := by
  unfold getCell
  rw [getRow_setCell_self g r c v hr, listGet_set_self _ _ c (by simpa using hc)]
  rfl

theorem setCell_setCell (g : Grid) (r c a b : Nat) :
    setCell (setCell g r c a) r c b = setCell g r c b := by
  rcases Nat.lt_or_ge r g.length with hr | hr
  · show (setCell g r c a).set r ((getRow (setCell g r c a) r).set c b) = _
    rw [getRow_setCell_self g r c a hr]
    unfold setCell
    rw [listSet_set, listSet_set]
  · rw [setCell_oob_row g r c a hr]

theorem setCell_getCell_self (g : Grid) (r c : Nat) :
    setCell g r c (getCell g r c) = g := by
  rcases Nat.lt_or_ge r g.length with hr | hr
  · have hrow : g.get? r = some (getRow g r) := by
      unfold getRow
      cases h : g.get? r with
      | none => exact absurd (List.get?_eq_none.mp h) (by omega)
      | some row => rfl
    rcases Nat.lt_or_ge c (getRow g r).length with hc | hc
    · have hcel : (getRow g r).get? c = some (getCell g r c) := by
        unfold getCell
        cases h : (getRow g r).get? c with
        | none => exact absurd (List.get?_eq_none.mp h) (by omega)
        | some x => rfl
      unfold setCell
      rw [listSet_get_same _ c _ hcel, listSet_get_same _ r _ hrow]
    · unfold setCell
      rw [listSet_oob _ _ c hc, listSet_get_same _ r _ hrow]
  · exact setCell_oob_row g r c _ hr

/-- Clearing a cell that already holds 0 leaves the grid unchanged. -/
theorem setCell_cancel (g : Grid) (r c : Nat) (h : getCell g r c = 0) :
    setCell g r c 0 = g := by
  rw [← h]
  exact setCell_getCell_self g r c

/-- Digits tried by the solver, in ascending order (`for num = 1..9`). -/
def digits : List Nat := [1, 2, 3, 4, 5, 6, 7, 8, 9]

/-- Embeds `Validator.isValidPlacement` (src/js/validator.js): the row scan
skips column `col`, the column scan skips row `row`, and the box scan skips
every box cell sharing the row or the column with (row, col). -/
def isValidPlacement (g : Grid) (row col num : Nat) : Bool :=
  ((List.range 9).all fun c => c == col || getCell g row c != num) &&
  ((List.range 9).all fun r => r == row || getCell g r col != num) &&
  ((List.range 3).all fun dr => (List.range 3).all fun dc =>
    (row / 3 * 3 + dr) == row || (col / 3 * 3 + dc) == col ||
      getCell g (row / 3 * 3 + dr) (col / 3 * 3 + dc) != num)

/-- Embeds `Validator.validateGrid`: for every occupied cell, the digit is
temporarily removed and re-tested; the returned list holds the flat indices
(`Utils.getIndex row col = row * 9 + col`) of the cells that fail, in
row-major order. -/
def validateGrid (g : Grid) : List Nat :=
  (List.range 81).filter fun i =>
    getCell g (i / 9) (i % 9) != 0 &&
      !(isValidPlacement (setCell g (i / 9) (i % 9) 0) (i / 9) (i % 9)
          (getCell g (i / 9) (i % 9)))

/-- Embeds `Validator.isComplete`: no cell of the 9x9 board equals 0. -/
def isComplete (g : Grid) : Bool :=
  (List.range 81).all fun i => getCell g (i / 9) (i % 9) != 0

/-- Embeds `Validator.isSolved`: complete and conflict-free. -/
def isSolved (g : Grid) : Bool :=
  isComplete g && ((validateGrid g).length == 0)

/-- The 81 board coordinates in row-major order. -/
def cellList : List (Nat × Nat) := (List.range 81).map fun i => (i / 9, i % 9)

/-- Embeds `Solver.findEmptyCell` (src/js/solver.js): the first cell holding
0 in row-major order, or none when the board is full. -/
def findEmptyCell (g : Grid) : Option (Nat × Nat) :=
  cellList.find? fun rc => getCell g rc.1 rc.2 == 0

/-- Cell (r2, c2) shares the row, the column, or the 3x3 box with (r1, c1). -/
def sameUnit (r1 c1 r2 c2 : Nat) : Prop :=
  r2 = r1 ∨ c2 = c1 ∨ (r2 / 3 = r1 / 3 ∧ c2 / 3 = c1 / 3)

/-- The three scans of `isValidPlacement` together check exactly the cells
distinct from (row, col) that share a unit with it: the box cells the box
scan skips are covered by the row and column scans. -/
theorem isValidPlacement_iff (g : Grid) (row col num : Nat)
    (hr : row < 9) (hc : col < 9) :
    isValidPlacement g row col num = true ↔
      ∀ r2 c2, r2 < 9 → c2 < 9 → ¬(r2 = row ∧ c2 = col) →
        sameUnit row col r2 c2 → getCell g r2 c2 ≠ num := by
  unfold isValidPlacement
  simp only [Bool.and_eq_true, List.all_eq_true, List.mem_range, Bool.or_eq_true,
    beq_iff_eq, bne_iff_ne, ne_eq]
  constructor
  · rintro ⟨⟨hrow, hcol⟩, hbox⟩ r2 c2 h2 h3 hne hunit
    by_cases he : r2 = row
    · subst he
      have hcc : ¬ c2 = col := fun h => hne ⟨rfl, h⟩
      rcases hrow c2 h3 with h | h
      · exact absurd h hcc
      · exact h
    · by_cases hce : c2 = col
      · subst hce
        rcases hcol r2 h2 with h | h
        · exact absurd h he
        · exact h
      · rcases hunit with h | h | ⟨hbr, hbc⟩
        · exact absurd h he
        · exact absurd h hce
        · have hdr : r2 - row / 3 * 3 < 3 := by omega
          have hdc : c2 - col / 3 * 3 < 3 := by omega
          have her : row / 3 * 3 + (r2 - row / 3 * 3) = r2 := by omega
          have hec : col / 3 * 3 + (c2 - col / 3 * 3) = c2 := by omega
          have := hbox (r2 - row / 3 * 3) hdr (c2 - col / 3 * 3) hdc
          rw [her, hec] at this
          rcases this with (h | h) | h
          · exact absurd h he
          · exact absurd h hce
          · exact h
  · intro h
    refine ⟨⟨?_, ?_⟩, ?_⟩
    · intro c2 h2
      by_cases hce : c2 = col
      · exact Or.inl hce
      · exact Or.inr (h row c2 hr h2 (fun hp => hce hp.2) (Or.inl rfl))
    · intro r2 h2
      by_cases hre : r2 = row
      · exact Or.inl hre
      · exact Or.inr (h r2 col h2 hc (fun hp => hre hp.1) (Or.inr (Or.inl rfl)))
    · intro dr hdr dc hdc
      by_cases hre : row / 3 * 3 + dr = row
      · exact Or.inl (Or.inl hre)
      · by_cases hce : col / 3 * 3 + dc = col
        · exact Or.inl (Or.inr hce)
        · refine Or.inr (h (row / 3 * 3 + dr) (col / 3 * 3 + dc)
            (by omega) (by omega) (fun hp => hre hp.1)
            (Or.inr (Or.inr ⟨by omega, by omega⟩)))

theorem not_and_cells {r c r2 c2 : Nat} (h : ¬(r2 = r ∧ c2 = c)) :
    r2 ≠ r ∨ c2 ≠ c := by
  by_cases h1 : r2 = r
  · exact Or.inr (fun h2 => h ⟨h1, h2⟩)
  · exact Or.inl h1

theorem sameUnit_symm {a b c d : Nat} (h : sameUnit a b c d) : sameUnit c d a b := by
  rcases h with h | h | ⟨h1, h2⟩
  · exact Or.inl h.symm
  · exact Or.inr (Or.inl h.symm)
  · exact Or.inr (Or.inr ⟨h1.symm, h2.symm⟩)

/-- No two distinct cells of the same row, column or box hold the same
nonzero digit.  This is the conflict-freedom property `validateGrid`
decides. -/
def NoConflicts (g : Grid) : Prop :=
  ∀ r c r2 c2, r < 9 → c < 9 → r2 < 9 → c2 < 9 → getCell g r c ≠ 0 →
    ¬(r2 = r ∧ c2 = c) → sameUnit r c r2 c2 → getCell g r2 c2 ≠ getCell g r c

/-- Validity of a digit re-tested at its own (temporarily cleared) cell,
expressed over the original grid. -/
theorem cleared_placement_iff (g : Grid) (r c : Nat) (hr : r < 9) (hc : c < 9)
    (v : Nat) :
    isValidPlacement (setCell g r c 0) r c v = true ↔
      ∀ r2 c2, r2 < 9 → c2 < 9 → ¬(r2 = r ∧ c2 = c) → sameUnit r c r2 c2 →
        getCell g r2 c2 ≠ v := by
  rw [isValidPlacement_iff _ _ _ _ hr hc]
  constructor <;> intro h r2 c2 h2 h3 hne hu
  · have := h r2 c2 h2 h3 hne hu
    rwa [getCell_setCell_ne g r c 0 r2 c2 (not_and_cells hne)] at this
  · rw [getCell_setCell_ne g r c 0 r2 c2 (not_and_cells hne)]
    exact h r2 c2 h2 h3 hne hu

/-- An empty `validateGrid` result characterizes conflict-freedom of the
filled cells. -/
theorem validateGrid_nil_iff (g : Grid) :
    validateGrid g = [] ↔ NoConflicts g := by
  unfold validateGrid
  rw [List.filter_eq_nil_iff]
  simp only [List.mem_range, Bool.and_eq_true, bne_iff_ne, ne_eq, Bool.not_eq_true',
    Bool.not_eq_true, not_and]
  constructor
  · intro h r c r2 c2 hr hc h2 h3 hfill hne hu
    have hi : r * 9 + c < 81 := by omega
    have := h (r * 9 + c) hi
    have hrr : (r * 9 + c) / 9 = r := by omega
    have hcc : (r * 9 + c) % 9 = c := by omega
    rw [hrr, hcc] at this
    have hv := this (by simpa using hfill)
    have hv2 : isValidPlacement (setCell g r c 0) r c (getCell g r c) = true := by
      cases hb : isValidPlacement (setCell g r c 0) r c (getCell g r c)
      · exact absurd hv (by simp [hb])
      · rfl
    exact (cleared_placement_iff g r c hr hc _).mp hv2 r2 c2 h2 h3 hne hu
  · intro h i hi hfill
    have hr : i / 9 < 9 := by omega
    have hc : i % 9 < 9 := by omega
    have hv : isValidPlacement (setCell g (i / 9) (i % 9) 0) (i / 9) (i % 9)
        (getCell g (i / 9) (i % 9)) = true := by
      refine (cleared_placement_iff g (i / 9) (i % 9) hr hc _).mpr ?_
      intro r2 c2 h2 h3 hne hu
      exact h (i / 9) (i % 9) r2 c2 hr hc h2 h3 (by simpa using hfill) hne hu
    simp [hv]

/-- A `none` result of the row-major empty-cell scan is exactly
completeness. -/
theorem findEmptyCell_eq_none_iff (g : Grid) :
    findEmptyCell g = none ↔ isComplete g = true := by
  unfold findEmptyCell cellList isComplete
  rw [List.find?_eq_none]
  simp only [List.mem_map, List.mem_range, List.all_eq_true, beq_iff_eq, bne_iff_ne,
    ne_eq, Bool.not_eq_true]
  constructor
  · intro h i hi
    have := h (i / 9, i % 9) ⟨i, hi, rfl⟩
    simpa using this
  · rintro h rc ⟨i, hi, hrc⟩
    have := h i hi
    rw [← hrc]
    simpa using this

/-- The scan returns a cell of the 9x9 board that holds 0. -/
theorem findEmptyCell_spec (g : Grid) (rc : Nat × Nat)
    (h : findEmptyCell g = some rc) :
    rc.1 < 9 ∧ rc.2 < 9 ∧ getCell g rc.1 rc.2 = 0 := by
  have hmem := List.mem_of_find?_eq_some h
  have hp := List.find?_some h
  unfold cellList at hmem
  rcases List.mem_map.mp hmem with ⟨i, hi, hrc⟩
  rw [List.mem_range] at hi
  refine ⟨?_, ?_, by simpa using hp⟩
  · rw [← hrc]; exact (by omega : i / 9 < 9)
  · rw [← hrc]; exact (by omega : i % 9 < 9)

theorem getRow_get? (g : Grid) (r : Nat) (hr : r < g.length) :
    g.get? r = some (getRow g r) := by
  unfold getRow
  cases h : g.get? r with
  | none => exact absurd (List.get?_eq_none.mp h) (by omega)
  | some row => rfl

theorem getRow_length (g : Grid) (r : Nat) (hwf : WellFormed9 g) (hr : r < 9) :
    (getRow g r).length = 9 := by
  obtain ⟨hlen, hrows⟩ := hwf
  exact hrows _ (List.get?_mem (getRow_get? g r (by omega)))

theorem WellFormed9_setCell (g : Grid) (r c v : Nat) (hwf : WellFormed9 g)
    (hr : r < 9) : WellFormed9 (setCell g r c v) := by
  obtain ⟨hlen, hrows⟩ := hwf
  constructor
  · unfold setCell
    rw [List.length_set]
    exact hlen
  · intro row hrow
    unfold setCell at hrow
    rcases List.mem_or_eq_of_mem_set hrow with h | h
    · exact hrows row h
    · rw [h, List.length_set]
      exact getRow_length g r ⟨hlen, hrows⟩ hr

/-- Placing a digit that passes `isValidPlacement` into an empty cell keeps
the grid conflict-free. -/
theorem NoConflicts_setCell (g : Grid) (r c num : Nat) (hwf : WellFormed9 g)
    (hr : r < 9) (hc : c < 9) (h0 : getCell g r c = 0)
    (hv : isValidPlacement g r c num = true) (hnc : NoConflicts g) :
    NoConflicts (setCell g r c num) := by
  have hself : getCell (setCell g r c num) r c = num :=
    getCell_setCell_self g r c num (by rw [hwf.1]; exact hr)
      (by rw [getRow_length g r hwf hr]; exact hc)
  have H := (isValidPlacement_iff g r c num hr hc).mp hv
  intro a b a2 b2 ha hb ha2 hb2 hfill hne hu
  by_cases he1 : a = r ∧ b = c
  · obtain ⟨he1r, he1c⟩ := he1
    subst he1r; subst he1c
    have hne2 : ¬(a2 = a ∧ b2 = b) := hne
    rw [hself]
    rw [getCell_setCell_ne g a b num a2 b2 (not_and_cells hne2)]
    exact H a2 b2 ha2 hb2 hne2 hu
  · by_cases he2 : a2 = r ∧ b2 = c
    · obtain ⟨he2r, he2c⟩ := he2
      subst he2r; subst he2c
      rw [hself]
      rw [getCell_setCell_ne g a2 b2 num a b (not_and_cells he1)]
      exact fun h => H a b ha hb he1 (sameUnit_symm hu) h.symm
    · rw [getCell_setCell_ne g r c num a2 b2 (not_and_cells he2),
        getCell_setCell_ne g r c num a b (not_and_cells he1)]
      rw [getCell_setCell_ne g r c num a b (not_and_cells he1)] at hfill
      exact hnc a b a2 b2 ha hb ha2 hb2 hfill hne hu

/-- Embeds the digit loop of `Solver.solve`: try each digit, recurse after a
valid placement, and revert the cell to 0 when the recursion fails. -/
def tryDigits (rec : Grid → Bool × Grid) (r c : Nat) :
    List Nat → Grid → Bool × Grid
  | [], g => (false, g)
  | num :: rest, g =>
    if isValidPlacement g r c num then
      match rec (setCell g r c num) with
      | (true, g2) => (true, g2)
      | (false, g2) => tryDigits rec r c rest (setCell g2 r c 0)
    else tryDigits rec r c rest g

/-- Embeds `Solver.solve` with explicit fuel; the boolean result is the JS
return value and the grid is the final state of the mutated array. -/
def solveAux : Nat → Grid → Bool × Grid
  | 0, g => (false, g)
  | fuel + 1, g =>
    match findEmptyCell g with
    | none => (true, g)
    | some rc => tryDigits (solveAux fuel) rc.1 rc.2 digits g

/-- Solver entry point; fuel 82 covers any 9x9 grid (at most 81 empty
cells, one recursion level per placement). -/
def solve (g : Grid) : Bool × Grid := solveAux 82 g

theorem tryDigits_restore (rec : Grid → Bool × Grid)
    (hrec : ∀ g, (rec g).1 = false → (rec g).2 = g) (r c : Nat) :
    ∀ (l : List Nat) (g : Grid), getCell g r c = 0 →
      (tryDigits rec r c l g).1 = false → (tryDigits rec r c l g).2 = g := by
  intro l
  induction l with
  | nil => intro g h0 _; rfl
  | cons num rest ih =>
    intro g h0 hf
    unfold tryDigits at hf ⊢
    by_cases hv : isValidPlacement g r c num = true
    · rw [if_pos hv] at hf ⊢
      cases hres : rec (setCell g r c num) with
      | mk b g2 =>
        rw [hres] at hf
        cases b with
        | true => simp at hf
        | false =>
          have hg2 : g2 = setCell g r c num := by
            have h1 := hrec (setCell g r c num) (by rw [hres])
            rw [hres] at h1
            exact h1
          have hback : setCell g2 r c 0 = g := by
            rw [hg2, setCell_setCell, setCell_cancel g r c h0]
          simp only at hf
          rw [hback] at hf
          simp only
          rw [hback]
          exact ih g h0 hf
    · rw [if_neg hv] at hf ⊢
      exact ih g h0 hf

/-- When the backtracking search fails, the grid is restored exactly to its
entry state. -/
theorem solveAux_restore : ∀ (fuel : Nat) (g : Grid),
    (solveAux fuel g).1 = false → (solveAux fuel g).2 = g := by
  intro fuel
  induction fuel with
  | zero => intro g _; rfl
  | succ n ih =>
    intro g hf
    unfold solveAux at hf ⊢
    cases hfe : findEmptyCell g with
    | none => rw [hfe] at hf
    | some rc =>
      rw [hfe] at hf
      have hf2 : (tryDigits (solveAux n) rc.1 rc.2 digits g).1 = false := hf
      show (tryDigits (solveAux n) rc.1 rc.2 digits g).2 = g
      exact tryDigits_restore (solveAux n) ih rc.1 rc.2 digits g
        (findEmptyCell_spec g rc hfe).2.2 hf2

theorem tryDigits_frame (rec : Grid → Bool × Grid)
    (hrecframe : ∀ g a b, getCell g a b ≠ 0 → getCell (rec g).2 a b = getCell g a b)
    (hrecrestore : ∀ g, (rec g).1 = false → (rec g).2 = g) (r c : Nat) :
    ∀ (l : List Nat) (g : Grid), getCell g r c = 0 → ∀ a b, getCell g a b ≠ 0 →
      getCell (tryDigits rec r c l g).2 a b = getCell g a b := by
  intro l
  induction l with
  | nil => intro g _ a b _; rfl
  | cons num rest ih =>
    intro g h0 a b hab
    unfold tryDigits
    by_cases hv : isValidPlacement g r c num = true
    · rw [if_pos hv]
      cases hres : rec (setCell g r c num) with
      | mk bb g2 =>
        cases bb with
        | true =>
          show getCell g2 a b = getCell g a b
          have hne : a ≠ r ∨ b ≠ c := by
            by_cases h1 : a = r
            · refine Or.inr (fun h2 => ?_)
              rw [h1, h2] at hab
              exact hab h0
            · exact Or.inl h1
          have hset : getCell (setCell g r c num) a b = getCell g a b :=
            getCell_setCell_ne g r c num a b hne
          have hstep := hrecframe (setCell g r c num) a b (by rw [hset]; exact hab)
          rw [hres] at hstep
          exact hstep.trans hset
        | false =>
          show getCell (tryDigits rec r c rest (setCell g2 r c 0)).2 a b = getCell g a b
          have hg2 : g2 = setCell g r c num := by
            have h1 := hrecrestore _ (by rw [hres])
            rw [hres] at h1
            exact h1
          have hback : setCell g2 r c 0 = g := by
            rw [hg2, setCell_setCell, setCell_cancel g r c h0]
          rw [hback]
          exact ih g h0 a b hab
    · rw [if_neg hv]
      exact ih g h0 a b hab

/-- The search only ever writes cells that were 0; a cell holding a clue
keeps its value in the final state, on success and on failure alike. -/
theorem solveAux_frame : ∀ (fuel : Nat) (g : Grid) (a b : Nat),
    getCell g a b ≠ 0 → getCell (solveAux fuel g).2 a b = getCell g a b := by
  intro fuel
  induction fuel with
  | zero => intro g a b _; rfl
  | succ n ih =>
    intro g a b hab
    unfold solveAux
    cases hfe : findEmptyCell g with
    | none => rfl
    | some rc =>
      show getCell (tryDigits (solveAux n) rc.1 rc.2 digits g).2 a b = getCell g a b
      exact tryDigits_frame (solveAux n) ih (solveAux_restore n) rc.1 rc.2 digits g
        (findEmptyCell_spec g rc hfe).2.2 a b hab

theorem tryDigits_solved (rec : Grid → Bool × Grid)
    (hrec : ∀ g, WellFormed9 g → NoConflicts g → (rec g).1 = true →
      WellFormed9 (rec g).2 ∧ NoConflicts (rec g).2 ∧ findEmptyCell (rec g).2 = none)
    (hrecrestore : ∀ g, (rec g).1 = false → (rec g).2 = g)
    (r c : Nat) (hr : r < 9) (hc : c < 9) :
    ∀ (l : List Nat) (g : Grid), WellFormed9 g → NoConflicts g →
      getCell g r c = 0 → (tryDigits rec r c l g).1 = true →
      WellFormed9 (tryDigits rec r c l g).2 ∧
        NoConflicts (tryDigits rec r c l g).2 ∧
        findEmptyCell (tryDigits rec r c l g).2 = none := by
  intro l
  induction l with
  | nil =>
    intro g _ _ _ ht
    exact absurd ht (by simp [tryDigits])
  | cons num rest ih =>
    intro g hwf hnc h0 ht
    unfold tryDigits at ht ⊢
    by_cases hv : isValidPlacement g r c num = true
    · rw [if_pos hv] at ht ⊢
      cases hres : rec (setCell g r c num) with
      | mk bb g2 =>
        rw [hres] at ht
        cases bb with
        | true =>
          have hwf2 : WellFormed9 (setCell g r c num) :=
            WellFormed9_setCell g r c num hwf hr
          have hnc2 : NoConflicts (setCell g r c num) :=
            NoConflicts_setCell g r c num hwf hr hc h0 hv hnc
          have hstep := hrec (setCell g r c num) hwf2 hnc2 (by rw [hres])
          rw [hres] at hstep
          exact hstep
        | false =>
          have hg2 : g2 = setCell g r c num := by
            have h1 := hrecrestore _ (by rw [hres])
            rw [hres] at h1
            exact h1
          have hback : setCell g2 r c 0 = g := by
            rw [hg2, setCell_setCell, setCell_cancel g r c h0]
          have ht2 : (tryDigits rec r c rest (setCell g2 r c 0)).1 = true := ht
          rw [hback] at ht2
          show WellFormed9 (tryDigits rec r c rest (setCell g2 r c 0)).2 ∧
            NoConflicts (tryDigits rec r c rest (setCell g2 r c 0)).2 ∧
            findEmptyCell (tryDigits rec r c rest (setCell g2 r c 0)).2 = none
          rw [hback]
          exact ih g hwf hnc h0 ht2
    · rw [if_neg hv] at ht ⊢
      exact ih g hwf hnc h0 ht

/-- On success the search preserves well-formedness and conflict-freedom and
reaches a board with no empty cell. -/
theorem solveAux_solved : ∀ (fuel : Nat) (g : Grid), WellFormed9 g →
    NoConflicts g → (solveAux fuel g).1 = true →
    WellFormed9 (solveAux fuel g).2 ∧ NoConflicts (solveAux fuel g).2 ∧
      findEmptyCell (solveAux fuel g).2 = none := by
  intro fuel
  induction fuel with
  | zero =>
    intro g _ _ ht
    exact absurd ht (by simp [solveAux])
  | succ n ih =>
    intro g hwf hnc ht
    unfold solveAux at ht ⊢
    cases hfe : findEmptyCell g with
    | none => exact ⟨hwf, hnc, hfe⟩
    | some rc =>
      rw [hfe] at ht
      obtain ⟨h1, h2, h0⟩ := findEmptyCell_spec g rc hfe
      have ht2 : (tryDigits (solveAux n) rc.1 rc.2 digits g).1 = true := ht
      show WellFormed9 (tryDigits (solveAux n) rc.1 rc.2 digits g).2 ∧ _
      exact tryDigits_solved (solveAux n) ih (solveAux_restore n) rc.1 rc.2 h1 h2
        digits g hwf hnc h0 ht2

/-- A complete, conflict-free grid satisfies `isSolved`. -/
theorem isSolved_of (g : Grid) (hnc : NoConflicts g)
    (hcomplete : findEmptyCell g = none) : isSolved g = true := by
  unfold isSolved
  rw [Bool.and_eq_true]
  refine ⟨(findEmptyCell_eq_none_iff g).mp hcomplete, ?_⟩
  rw [(validateGrid_nil_iff g).mpr hnc]
  rfl

/-- A concrete valid solved grid (rows are shifts of 1..9 by 0,3,6,1,4,7,2,5,8). -/
def solvedGrid1 : Grid :=
  [[1, 2, 3, 4, 5, 6, 7, 8, 9],
   [4, 5, 6, 7, 8, 9, 1, 2, 3],
   [7, 8, 9, 1, 2, 3, 4, 5, 6],
   [2, 3, 4, 5, 6, 7, 8, 9, 1],
   [5, 6, 7, 8, 9, 1, 2, 3, 4],
   [8, 9, 1, 2, 3, 4, 5, 6, 7],
   [3, 4, 5, 6, 7, 8, 9, 1, 2],
   [6, 7, 8, 9, 1, 2, 3, 4, 5],
   [9, 1, 2, 3, 4, 5, 6, 7, 8]]

/-- A grid on which `solve` fails immediately: cell (0,0) is empty, digits
1..8 occur in row 0 and digit 9 occurs in column 0. -/
def stuckGrid : Grid :=
  [[0, 1, 2, 3, 4, 5, 6, 7, 8],
   [9, 0, 0, 0, 0, 0, 0, 0, 0],
   [0, 0, 0, 0, 0, 0, 0, 0, 0],
   [0, 0, 0, 0, 0, 0, 0, 0, 0],
   [0, 0, 0, 0, 0, 0, 0, 0, 0],
   [0, 0, 0, 0, 0, 0, 0, 0, 0],
   [0, 0, 0, 0, 0, 0, 0, 0, 0],
   [0, 0, 0, 0, 0, 0, 0, 0, 0],
   [0, 0, 0, 0, 0, 0, 0, 0, 0]]

/-- C1: for every 9x9 grid with entries in [0,9] whose filled cells contain
no rule violation, if `solve` returns true then the grid it leaves behind
satisfies `isSolved`: every cell is nonzero and `validateGrid` of the
result is empty. -/
theorem solve_true_isSolved (g : Grid) (hwf : WellFormed9 g)
    (_hb : EntriesBounded g) (hval : validateGrid g = [])
    (ht : (solve g).1 = true) : isSolved (solve g).2 = true := by
  have hnc := (validateGrid_nil_iff g).mp hval
  obtain ⟨_, hnc2, hcomp⟩ := solveAux_solved 82 g hwf hnc ht
  exact isSolved_of _ hnc2 hcomp

/-- C1 witness: the hypotheses of `solve_true_isSolved` hold at a concrete
solved grid, and the conclusion follows by the theorem. -/
theorem solve_true_isSolved_witness :
    WellFormed9 solvedGrid1 ∧ EntriesBounded solvedGrid1 ∧
      validateGrid solvedGrid1 = [] ∧ (solve solvedGrid1).1 = true ∧
      isSolved (solve solvedGrid1).2 = true :=
  ⟨by decide, by decide, by decide, by decide,
    solve_true_isSolved solvedGrid1 (by decide) (by decide) (by decide) (by decide)⟩

/-- C2: if `solve` returns false, the grid is left exactly equal to its
state on entry. -/
theorem solve_false_restores (g : Grid) (h : (solve g).1 = false) :
    (solve g).2 = g := solveAux_restore 82 g h

/-- C2 witness: a concrete grid on which `solve` fails, restored exactly. -/
theorem solve_false_restores_witness :
    (solve stuckGrid).1 = false ∧ (solve stuckGrid).2 = stuckGrid :=
  ⟨by decide, solve_false_restores stuckGrid (by decide)⟩

/-- C3: `isValidPlacement` returns true iff no cell other than (row,col) in
the same row, column or 3x3 box holds the digit; the box cells the box scan
skips are exactly covered by the row and column scans. -/
theorem isValidPlacement_correct (g : Grid) (row col digit : Nat)
    (_hb : EntriesBounded g) (hr : row < 9) (hc : col < 9)
    (_hd1 : 1 ≤ digit) (_hd9 : digit ≤ 9) :
    isValidPlacement g row col digit = true ↔
      ∀ r2 c2, r2 < 9 → c2 < 9 → ¬(r2 = row ∧ c2 = col) →
        sameUnit row col r2 c2 → getCell g r2 c2 ≠ digit :=
  isValidPlacement_iff g row col digit hr hc

/-- C3 witness: the hypotheses hold at a concrete grid and cell. -/
theorem isValidPlacement_correct_witness :
    EntriesBounded solvedGrid1 ∧ 0 < 9 ∧ 1 ≤ 5 ∧ 5 ≤ 9 ∧
      (isValidPlacement solvedGrid1 0 0 5 = true ↔
        ∀ r2 c2, r2 < 9 → c2 < 9 → ¬(r2 = 0 ∧ c2 = 0) →
          sameUnit 0 0 r2 c2 → getCell solvedGrid1 r2 c2 ≠ 5) :=
  ⟨by decide, by decide, by decide, by decide,
    isValidPlacement_correct solvedGrid1 0 0 5 (by decide) (by decide) (by decide)
      (by decide) (by decide)⟩

/-- C9: `solve` writes only to cells that were 0 on entry; whether it
returns true or false, every cell nonzero in the input holds its original
value in the final grid. -/
theorem solve_frame (g : Grid) (a b : Nat) (h : getCell g a b ≠ 0) :
    getCell (solve g).2 a b = getCell g a b := solveAux_frame 82 g a b h

/-- C9 witness: a concrete nonzero cell survives `solve` unchanged. -/
theorem solve_frame_witness :
    getCell solvedGrid1 0 0 ≠ 0 ∧
      getCell (solve solvedGrid1).2 0 0 = getCell solvedGrid1 0 0 :=
  ⟨by decide, solve_frame solvedGrid1 0 0 (by decide)⟩

/-- Embeds the digit loop of the inner `count` closure of
`Solver.countSolutions`: place, recurse, revert, then early-exit once the
counter reaches the bound. -/
def countDigits (rec : Nat → Grid → Nat × Grid) (r c maxCount : Nat) :
    List Nat → Nat → Grid → Nat × Grid
  | [], cnt, g => (cnt, g)
  | num :: rest, cnt, g =>
    if isValidPlacement g r c num then
      match rec cnt (setCell g r c num) with
      | (cnt2, g2) =>
        if maxCount ≤ cnt2 then (cnt2, setCell g2 r c 0)
        else countDigits rec r c maxCount rest cnt2 (setCell g2 r c 0)
    else countDigits rec r c maxCount rest cnt g

/-- Embeds the recursive `count` closure of `Solver.countSolutions` with
explicit fuel, counter and grid state. -/
def countAux : Nat → Nat → Nat → Grid → Nat × Grid
  | 0, _, cnt, g => (cnt, g)
  | fuel + 1, maxCount, cnt, g =>
    if maxCount ≤ cnt then (cnt, g)
    else
      match findEmptyCell g with
      | none => (cnt + 1, g)
      | some rc => countDigits (countAux fuel maxCount) rc.1 rc.2 maxCount digits cnt g

/-- Embeds `Solver.countSolutions`: the search runs on a copy of the grid
(pure state here) and returns the number of solutions found, capped at
`maxCount`. -/
def countSolutions (g : Grid) (maxCount : Nat) : Nat :=
  (countAux 82 maxCount 0 g).1

/-- Embeds `Solver.hasUniqueSolution`. -/
def hasUniqueSolution (g : Grid) : Bool := countSolutions g 2 == 1

/-- Unbounded solution count of the same search tree: specification device
used to characterize the bounded counters. -/
def ncountAux : Nat → Grid → Nat
  | 0, _ => 0
  | fuel + 1, g =>
    match findEmptyCell g with
    | none => 1
    | some rc =>
      (digits.map fun num =>
        if isValidPlacement g rc.1 rc.2 num then
          ncountAux fuel (setCell g rc.1 rc.2 num)
        else 0).sum

/-- The bounded counter equals the unbounded count truncated at the bound,
and the search restores its grid buffer exactly. -/
theorem countAux_spec : ∀ (fuel maxCount cnt : Nat) (g : Grid), cnt ≤ maxCount →
    countAux fuel maxCount cnt g = (min (cnt + ncountAux fuel g) maxCount, g) := by
  intro fuel
  induction fuel with
  | zero =>
    intro maxCount cnt g hcnt
    show (cnt, g) = _
    rw [ncountAux]
    rw [Nat.add_zero, Nat.min_eq_left hcnt]
  | succ n ih =>
    intro maxCount cnt g hcnt
    unfold countAux
    by_cases hm : maxCount ≤ cnt
    · rw [if_pos hm]
      have : cnt = maxCount := Nat.le_antisymm hcnt hm
      subst this
      rw [Nat.min_eq_right (Nat.le_add_right _ _)]
    · rw [if_neg hm]
      cases hfe : findEmptyCell g with
      | none =>
        rw [ncountAux, hfe]
        show (cnt + 1, g) = (min (cnt + 1) maxCount, g)
        rw [Nat.min_eq_left (by omega)]
      | some rc =>
        have h0 := (findEmptyCell_spec g rc hfe).2.2
        have hloop : ∀ (l : List Nat) (cnt2 : Nat), cnt2 ≤ maxCount →
            countDigits (countAux n maxCount) rc.1 rc.2 maxCount l cnt2 g =
              (min (cnt2 + (l.map fun num =>
                if isValidPlacement g rc.1 rc.2 num then
                  ncountAux n (setCell g rc.1 rc.2 num)
                else 0).sum) maxCount, g) := by
          intro l
          induction l with
          | nil =>
            intro cnt2 h2
            show (cnt2, g) = _
            rw [List.map_nil, List.sum_nil, Nat.add_zero, Nat.min_eq_left h2]
          | cons num rest ihl =>
            intro cnt2 h2
            rw [List.map_cons, List.sum_cons]
            unfold countDigits
            by_cases hv : isValidPlacement g rc.1 rc.2 num = true
            · simp only [if_pos hv]
              cases hres : countAux n maxCount cnt2 (setCell g rc.1 rc.2 num) with
              | mk cnt3 g2 =>
                have h3 := hres.symm.trans (ih maxCount cnt2 (setCell g rc.1 rc.2 num) h2)
                have h31 : cnt3 =
                    min (cnt2 + ncountAux n (setCell g rc.1 rc.2 num)) maxCount :=
                  congrArg Prod.fst h3
                have h32 : g2 = setCell g rc.1 rc.2 num := congrArg Prod.snd h3
                have hback : setCell g2 rc.1 rc.2 0 = g := by
                  rw [h32, setCell_setCell, setCell_cancel g rc.1 rc.2 h0]
                show (if maxCount ≤ cnt3 then (cnt3, setCell g2 rc.1 rc.2 0)
                  else countDigits (countAux n maxCount) rc.1 rc.2 maxCount rest cnt3
                    (setCell g2 rc.1 rc.2 0)) = _
                rw [hback]
                by_cases hstop : maxCount ≤ cnt3
                · rw [if_pos hstop]
                  have hA : cnt3 = maxCount := by omega
                  have hB : min (cnt2 + (ncountAux n (setCell g rc.1 rc.2 num) +
                      (rest.map fun num =>
                        if isValidPlacement g rc.1 rc.2 num then
                          ncountAux n (setCell g rc.1 rc.2 num)
                        else 0).sum)) maxCount = maxCount := by omega
                  rw [hB, hA]
                · rw [if_neg hstop]
                  rw [ihl cnt3 (by omega)]
                  have hC : min (cnt3 + (rest.map fun num =>
                      if isValidPlacement g rc.1 rc.2 num then
                        ncountAux n (setCell g rc.1 rc.2 num)
                      else 0).sum) maxCount =
                    min (cnt2 + (ncountAux n (setCell g rc.1 rc.2 num) +
                      (rest.map fun num =>
                        if isValidPlacement g rc.1 rc.2 num then
                          ncountAux n (setCell g rc.1 rc.2 num)
                        else 0).sum)) maxCount := by omega
                  rw [hC]
            · simp only [if_neg hv]
              rw [Nat.zero_add]
              exact ihl cnt2 h2
        show countDigits (countAux n maxCount) rc.1 rc.2 maxCount digits cnt g = _
        rw [hloop digits cnt hcnt]
        rw [ncountAux, hfe]

/-- `countSolutions` computes the unbounded count truncated at the bound. -/
theorem countSolutions_eq_min (g : Grid) (maxCount : Nat) :
    countSolutions g maxCount = min (ncountAux 82 g) maxCount := by
  unfold countSolutions
  rw [countAux_spec 82 maxCount 0 g (Nat.zero_le _), Nat.zero_add]

/-- C6: `countSolutions` always returns a value in [0, n] and is
monotonically non-decreasing in the bound. -/
theorem countSolutions_bounds (g : Grid) (n m : Nat) :
    0 ≤ countSolutions g n ∧ countSolutions g n ≤ n ∧
      (n ≤ m → countSolutions g n ≤ countSolutions g m) := by
  rw [countSolutions_eq_min, countSolutions_eq_min]
  exact ⟨Nat.zero_le _, by omega, fun h => by omega⟩

/-- C6 witness: concrete bounds 1 ≤ 2 on a concrete grid. -/
theorem countSolutions_bounds_witness :
    1 ≤ 2 ∧ countSolutions solvedGrid1 1 ≤ countSolutions solvedGrid1 2 :=
  ⟨by decide, (countSolutions_bounds solvedGrid1 1 2).2.2 (by decide)⟩

/-- Simultaneous swap of two positions of a list, as in the JS destructuring
assignment of `Generator.shuffle`; a no-op when either index is out of range
(never the case in the source, where both indices are below the length). -/
def swapList (l : List Nat) (i j : Nat) : List Nat :=
  match l.get? i, l.get? j with
  | some x, some y => (l.set i y).set j x
  | _, _ => l

/-- Embeds the Fisher-Yates loop of `Generator.shuffle` (src/js/menu.js):
index `i` runs downward, each step consumes one `Math.random` draw `rand k`
reduced modulo `i + 1`, and the threaded draw index is returned. -/
def fisherYatesAux (rand : Nat → Nat) : Nat → Nat → List Nat → List Nat × Nat
  | 0, k, a => (a, k)
  | i + 1, k, a =>
    fisherYatesAux rand i (k + 1) (swapList a (i + 1) (rand k % (i + 2)))

/-- Embeds `Generator.shuffle`. -/
def shuffle (rand : Nat → Nat) (k : Nat) (a : List Nat) : List Nat × Nat :=
  fisherYatesAux rand (a.length - 1) k a

theorem cons_set_perm : ∀ (xs : List Nat) (m x y : Nat), xs.get? m = some y →
    (y :: xs.set m x).Perm (x :: xs) := by
  intro xs
  induction xs with
  | nil =>
    intro m x y h
    cases m <;> simp [List.get?] at h
  | cons z zs ih =>
    intro m x y h
    cases m with
    | zero =>
      injection h with h2
      cases h2
      exact List.Perm.swap x z zs
    | succ n =>
      have h2 : zs.get? n = some y := h
      have p1 : (y :: z :: zs.set n x).Perm (z :: y :: zs.set n x) :=
        List.Perm.swap z y (zs.set n x)
      have p2 : (z :: y :: zs.set n x).Perm (z :: x :: zs) :=
        List.Perm.cons z (ih n x y h2)
      have p3 : (z :: x :: zs).Perm (x :: z :: zs) := List.Perm.swap x z zs
      exact (p1.trans p2).trans p3

theorem set_set_perm : ∀ (l : List Nat) (i j x y : Nat), l.get? i = some x →
    l.get? j = some y → ((l.set i y).set j x).Perm l := by
  intro l
  induction l with
  | nil =>
    intro i j x y hi _
    cases i <;> simp [List.get?] at hi
  | cons z zs ih =>
    intro i j x y hi hj
    cases i with
    | zero =>
      cases j with
      | zero =>
        injection hi with hx
        cases hx
        exact List.Perm.refl _
      | succ m =>
        injection hi with hx
        cases hx
        exact cons_set_perm zs m z y hj
    | succ n =>
      cases j with
      | zero =>
        injection hj with hy
        cases hy
        exact cons_set_perm zs n z x hi
      | succ m =>
        exact List.Perm.cons z (ih n m x y hi hj)

theorem swapList_perm (l : List Nat) (i j : Nat) : (swapList l i j).Perm l := by
  unfold swapList
  cases hi : l.get? i with
  | none => exact List.Perm.refl l
  | some x =>
    cases hj : l.get? j with
    | none => exact List.Perm.refl l
    | some y => exact set_set_perm l i j x y hi hj

/-- Every run of the Fisher-Yates loop yields a permutation of its input,
whatever the random stream supplies. -/
theorem fisherYatesAux_perm (rand : Nat → Nat) :
    ∀ (i k : Nat) (a : List Nat), ((fisherYatesAux rand i k a).1).Perm a := by
  intro i
  induction i with
  | zero => intro k a; exact List.Perm.refl a
  | succ n ih =>
    intro k a
    exact (ih (k + 1) (swapList a (n + 1) (rand k % (n + 2)))).trans
      (swapList_perm a (n + 1) (rand k % (n + 2)))

theorem shuffle_perm (rand : Nat → Nat) (k : Nat) (a : List Nat) :
    ((shuffle rand k a).1).Perm a := fisherYatesAux_perm rand (a.length - 1) k a

/-- Embeds the digit loop of `Generator.hasUniqueSolutionFast`: identical to
the `countSolutions` loop except that the digit order comes from a shuffle
and the early exit tests `solutionCount > 1`. -/
def fastLoop (rec : Nat → Nat → Grid → Nat × Nat × Grid) (r c : Nat) :
    List Nat → Nat → Nat → Grid → Nat × Nat × Grid
  | [], k, cnt, g => (cnt, k, g)
  | num :: rest, k, cnt, g =>
    if isValidPlacement g r c num then
      match rec k cnt (setCell g r c num) with
      | (cnt2, k2, g2) =>
        if 1 < cnt2 then (cnt2, k2, setCell g2 r c 0)
        else fastLoop rec r c rest k2 cnt2 (setCell g2 r c 0)
    else fastLoop rec r c rest k cnt g

/-- Embeds the recursive closure of `Generator.hasUniqueSolutionFast`
(src/js/menu.js): bounded counting with a freshly shuffled digit order at
every cell, threading the random draw index. -/
def fastCountAux (rand : Nat → Nat) : Nat → Nat → Nat → Grid → Nat × Nat × Grid
  | 0, k, cnt, g => (cnt, k, g)
  | fuel + 1, k, cnt, g =>
    if 1 < cnt then (cnt, k, g)
    else
      match findEmptyCell g with
      | none => (cnt + 1, k, g)
      | some rc =>
        match shuffle rand k digits with
        | (numbers, k1) => fastLoop (fastCountAux rand fuel) rc.1 rc.2 numbers k1 cnt g

/-- Embeds `Generator.hasUniqueSolutionFast`, also returning the advanced
random draw index. -/
def hasUniqueSolutionFastK (rand : Nat → Nat) (k : Nat) (g : Grid) : Bool × Nat :=
  match fastCountAux rand 82 k 0 g with
  | (cnt, k2, _) => (cnt == 1, k2)

/-- Boolean result of `Generator.hasUniqueSolutionFast`. -/
def hasUniqueSolutionFast (rand : Nat → Nat) (k : Nat) (g : Grid) : Bool :=
  (hasUniqueSolutionFastK rand k g).1

/-- The randomized bounded counter also computes the unbounded count
truncated at 2, for every random stream, and restores its grid buffer. -/
theorem fastCountAux_spec (rand : Nat → Nat) :
    ∀ (fuel k cnt : Nat) (g : Grid), cnt ≤ 2 →
      (fastCountAux rand fuel k cnt g).1 = min (cnt + ncountAux fuel g) 2 ∧
      (fastCountAux rand fuel k cnt g).2.2 = g := by
  intro fuel
  induction fuel with
  | zero =>
    intro k cnt g hcnt
    refine ⟨?_, rfl⟩
    show cnt = min (cnt + ncountAux 0 g) 2
    rw [ncountAux]
    omega
  | succ n ih =>
    intro k cnt g hcnt
    unfold fastCountAux
    by_cases hgt : 1 < cnt
    · rw [if_pos hgt]
      refine ⟨?_, rfl⟩
      show cnt = _
      omega
    · rw [if_neg hgt]
      cases hfe : findEmptyCell g with
      | none =>
        rw [ncountAux, hfe]
        exact ⟨by show cnt + 1 = min (cnt + 1) 2; omega, rfl⟩
      | some rc =>
        have h0 := (findEmptyCell_spec g rc hfe).2.2
        rcases hsh : shuffle rand k digits with ⟨numbers, k1⟩
        have hperm : numbers.Perm digits := by
          have hp := shuffle_perm rand k digits
          rw [hsh] at hp
          exact hp
        have hloop : ∀ (l : List Nat) (k2 cnt2 : Nat), cnt2 ≤ 2 →
            (fastLoop (fastCountAux rand n) rc.1 rc.2 l k2 cnt2 g).1 =
              min (cnt2 + (l.map fun num =>
                if isValidPlacement g rc.1 rc.2 num then
                  ncountAux n (setCell g rc.1 rc.2 num)
                else 0).sum) 2 ∧
            (fastLoop (fastCountAux rand n) rc.1 rc.2 l k2 cnt2 g).2.2 = g := by
          intro l
          induction l with
          | nil =>
            intro k2 cnt2 h2
            refine ⟨?_, rfl⟩
            show cnt2 = _
            rw [List.map_nil, List.sum_nil, Nat.add_zero, Nat.min_eq_left h2]
          | cons num rest ihl =>
            intro k2 cnt2 h2
            rw [List.map_cons, List.sum_cons]
            unfold fastLoop
            by_cases hv : isValidPlacement g rc.1 rc.2 num = true
            · simp only [if_pos hv]
              rcases hres : fastCountAux rand n k2 cnt2 (setCell g rc.1 rc.2 num)
                with ⟨cnt3, k3, g2⟩
              obtain ⟨hs1, hs2⟩ := ih k2 cnt2 (setCell g rc.1 rc.2 num) h2
              rw [hres] at hs1 hs2
              have h31 : cnt3 =
                  min (cnt2 + ncountAux n (setCell g rc.1 rc.2 num)) 2 := hs1
              have h32 : g2 = setCell g rc.1 rc.2 num := hs2
              have hback : setCell g2 rc.1 rc.2 0 = g := by
                rw [h32, setCell_setCell, setCell_cancel g rc.1 rc.2 h0]
              show ((if 1 < cnt3 then (cnt3, k3, setCell g2 rc.1 rc.2 0)
                else fastLoop (fastCountAux rand n) rc.1 rc.2 rest k3 cnt3
                  (setCell g2 rc.1 rc.2 0)).1 = _) ∧ _
              rw [hback]
              by_cases hstop : 1 < cnt3
              · rw [if_pos hstop]
                refine ⟨?_, rfl⟩
                show cnt3 = _
                omega
              · rw [if_neg hstop]
                obtain ⟨hl1, hl2⟩ := ihl k3 cnt3 (by omega)
                refine ⟨?_, hl2⟩
                rw [hl1]
                omega
            · simp only [if_neg hv]
              rw [Nat.zero_add]
              exact ihl k2 cnt2 h2
        show (fastLoop (fastCountAux rand n) rc.1 rc.2 numbers k1 cnt g).1 = _ ∧ _
        obtain ⟨hl1, hl2⟩ := hloop numbers k1 cnt hcnt
        refine ⟨?_, hl2⟩
        rw [hl1, ncountAux, hfe]
        have hsum : (numbers.map fun num =>
            if isValidPlacement g rc.1 rc.2 num then
              ncountAux n (setCell g rc.1 rc.2 num)
            else 0).sum =
          (digits.map fun num =>
            if isValidPlacement g rc.1 rc.2 num then
              ncountAux n (setCell g rc.1 rc.2 num)
            else 0).sum := List.Perm.sum_eq (hperm.map _)
        rw [hsum]

/-- C10: for every grid and every random stream, the randomized bounded
count of `Generator.hasUniqueSolutionFast` agrees with the ascending-order
bounded count of `Solver.hasUniqueSolution`, and both searches restore
their grid buffers (the callers additionally run them on copies). -/
theorem fastUnique_agrees (g : Grid) (rand : Nat → Nat) (k : Nat) :
    hasUniqueSolutionFast rand k g = hasUniqueSolution g ∧
      (fastCountAux rand 82 k 0 g).2.2 = g ∧ (countAux 82 2 0 g).2 = g := by
  obtain ⟨h1, h2⟩ := fastCountAux_spec rand 82 k 0 g (by omega)
  have h3 := countAux_spec 82 2 0 g (by omega)
  refine ⟨?_, h2, by rw [h3]⟩
  unfold hasUniqueSolutionFast hasUniqueSolutionFastK hasUniqueSolution countSolutions
  show ((fastCountAux rand 82 k 0 g).1 == 1) = ((countAux 82 2 0 g).1 == 1)
  rw [h1, h3]

/-- Embeds `Generator.getCluesCount`: the switch over the difficulty tier,
with the single `Math.floor(Math.random() * n)` draw modelled by `u % n`
(both range over exactly 0..n-1). -/
def getCluesCount (difficulty : String) (u : Nat) : Nat :=
  if difficulty = "beginner" then 46 + u % 5
  else if difficulty = "easy" then 40 + u % 5
  else if difficulty = "medium" then 32 + u % 6
  else if difficulty = "hard" then 28 + u % 4
  else if difficulty = "expert" then 22 + u % 5
  else if difficulty = "master" then 18 + u % 4
  else 35

/-- C7: every tier draws inside its stated clue range, the ranges are
strictly decreasing as difficulty increases, and no tier (nor the default
branch) ever returns fewer than 17 clues. -/
theorem getCluesCount_ranges (u : Nat) (d : String) :
    (46 ≤ getCluesCount "beginner" u ∧ getCluesCount "beginner" u ≤ 50) ∧
    (40 ≤ getCluesCount "easy" u ∧ getCluesCount "easy" u ≤ 44) ∧
    (32 ≤ getCluesCount "medium" u ∧ getCluesCount "medium" u ≤ 37) ∧
    (28 ≤ getCluesCount "hard" u ∧ getCluesCount "hard" u ≤ 31) ∧
    (22 ≤ getCluesCount "expert" u ∧ getCluesCount "expert" u ≤ 26) ∧
    (18 ≤ getCluesCount "master" u ∧ getCluesCount "master" u ≤ 21) ∧
    (∀ u2, getCluesCount "easy" u2 < getCluesCount "beginner" u ∧
      getCluesCount "medium" u2 < getCluesCount "easy" u ∧
      getCluesCount "hard" u2 < getCluesCount "medium" u ∧
      getCluesCount "expert" u2 < getCluesCount "hard" u ∧
      getCluesCount "master" u2 < getCluesCount "expert" u) ∧
    17 ≤ getCluesCount d u := by
  have hb : ∀ v, getCluesCount "beginner" v = 46 + v % 5 := fun _ => rfl
  have he : ∀ v, getCluesCount "easy" v = 40 + v % 5 := fun _ => rfl
  have hm : ∀ v, getCluesCount "medium" v = 32 + v % 6 := fun _ => rfl
  have hh : ∀ v, getCluesCount "hard" v = 28 + v % 4 := fun _ => rfl
  have hx : ∀ v, getCluesCount "expert" v = 22 + v % 5 := fun _ => rfl
  have hs : ∀ v, getCluesCount "master" v = 18 + v % 4 := fun _ => rfl
  have hd : 17 ≤ getCluesCount d u := by
    unfold getCluesCount
    split_ifs <;> omega
  refine ⟨⟨by rw [hb]; omega, by rw [hb]; omega⟩,
    ⟨by rw [he]; omega, by rw [he]; omega⟩,
    ⟨by rw [hm]; omega, by rw [hm]; omega⟩,
    ⟨by rw [hh]; omega, by rw [hh]; omega⟩,
    ⟨by rw [hx]; omega, by rw [hx]; omega⟩,
    ⟨by rw [hs]; omega, by rw [hs]; omega⟩,
    fun u2 => ⟨by rw [he u2, hb u]; omega, by rw [hm u2, he u]; omega,
      by rw [hh u2, hm u]; omega, by rw [hx u2, hh u]; omega,
      by rw [hs u2, hx u]; omega⟩, hd⟩

/-- Embeds `Generator.hashGrid`: the digits in row-major order, each
rendered in decimal, concatenated left to right (JS `grid.flat().join('')`). -/
def hashGrid (g : Grid) : String :=
  ((g.flatten).map (fun n => toString n)).foldl (fun acc s => acc ++ s) ""

theorem foldl_append_data (l : List String) :
    ∀ acc : String, (l.foldl (fun acc s => acc ++ s) acc).data =
      acc.data ++ (l.map String.data).flatten := by
  induction l with
  | nil => intro acc; simp
  | cons s rest ih =>
    intro acc
    rw [List.foldl_cons, ih (acc ++ s), List.map_cons, List.flatten_cons,
      String.data_append, List.append_assoc]

theorem toString_digit (n : Nat) (h : n ≤ 9) :
    (toString n).data = [Nat.digitChar n] := by
  interval_cases n <;> rfl

theorem flatten_map_data (l : List Nat) (hl : ∀ x ∈ l, x ≤ 9) :
    (l.map (String.data ∘ fun n => toString n)).flatten = l.map Nat.digitChar := by
  induction l with
  | nil => rfl
  | cons x rest ih =>
    rw [List.map_cons, List.map_cons, List.flatten_cons]
    rw [Function.comp_apply, toString_digit x (hl x (List.mem_cons_self _ _))]
    rw [List.singleton_append]
    rw [ih (fun y hy => hl y (List.mem_cons_of_mem x hy))]

/-- On digit entries, the hash is character-for-character the flattened
grid. -/
theorem hashGrid_data (g : Grid) (hb : EntriesBounded g) :
    (hashGrid g).data = (g.flatten).map Nat.digitChar := by
  unfold hashGrid
  rw [foldl_append_data]
  show [] ++ _ = _
  rw [List.nil_append, List.map_map]
  refine flatten_map_data g.flatten ?_
  intro x hx
  rcases List.mem_flatten.mp hx with ⟨row, hrow, hxr⟩
  exact hb row hrow x hxr

theorem digitChar_inj_le9 (a b : Nat) (ha : a ≤ 9) (hb : b ≤ 9)
    (h : Nat.digitChar a = Nat.digitChar b) : a = b := by
  have hd : ∀ a2 < 10, ∀ b2 < 10, Nat.digitChar a2 = Nat.digitChar b2 → a2 = b2 := by
    decide
  exact hd a (by omega) b (by omega) h

theorem map_digitChar_inj : ∀ (l1 l2 : List Nat), (∀ x ∈ l1, x ≤ 9) →
    (∀ x ∈ l2, x ≤ 9) → l1.map Nat.digitChar = l2.map Nat.digitChar → l1 = l2 := by
  intro l1
  induction l1 with
  | nil =>
    intro l2 _ _ h
    cases l2 with
    | nil => rfl
    | cons y ys => simp at h
  | cons x xs ih =>
    intro l2 h1 h2 h
    cases l2 with
    | nil => simp at h
    | cons y ys =>
      rw [List.map_cons, List.map_cons] at h
      injection h with hhead htail
      have hx : x = y := digitChar_inj_le9 x y (h1 x (List.mem_cons_self _ _))
        (h2 y (List.mem_cons_self _ _)) hhead
      rw [hx, ih ys (fun z hz => h1 z (List.mem_cons_of_mem x hz))
        (fun z hz => h2 z (List.mem_cons_of_mem y hz)) htail]

theorem flatten_inj_9x9 : ∀ (g1 g2 : Grid), g1.length = g2.length →
    (∀ row ∈ g1, row.length = 9) → (∀ row ∈ g2, row.length = 9) →
    g1.flatten = g2.flatten → g1 = g2 := by
  intro g1
  induction g1 with
  | nil =>
    intro g2 hlen _ _ _
    cases g2 with
    | nil => rfl
    | cons r rs => simp at hlen
  | cons r1 rest1 ih =>
    intro g2 hlen h1 h2 hf
    cases g2 with
    | nil => simp at hlen
    | cons r2 rest2 =>
      rw [List.flatten_cons, List.flatten_cons] at hf
      have hr1 : r1.length = 9 := h1 r1 (List.mem_cons_self _ _)
      have hr2 : r2.length = 9 := h2 r2 (List.mem_cons_self _ _)
      obtain ⟨hhead, htail⟩ := List.append_inj hf (by rw [hr1, hr2])
      rw [hhead, ih rest2 (by simpa using hlen)
        (fun row hrow => h1 row (List.mem_cons_of_mem r1 hrow))
        (fun row hrow => h2 row (List.mem_cons_of_mem r2 hrow)) htail]

/-- C8: `hashGrid` is deterministic, and injective on 9x9 grids with
entries in [0,9]: grids that differ in at least one cell hash to different
strings. -/
theorem hashGrid_deterministic_injective (g1 g2 : Grid)
    (hwf1 : WellFormed9 g1) (hb1 : EntriesBounded g1)
    (hwf2 : WellFormed9 g2) (hb2 : EntriesBounded g2) :
    (g1 = g2 → hashGrid g1 = hashGrid g2) ∧
      (g1 ≠ g2 → hashGrid g1 ≠ hashGrid g2) := by
  refine ⟨fun h => by rw [h], fun hne habs => hne ?_⟩
  have hdata : (hashGrid g1).data = (hashGrid g2).data := by rw [habs]
  rw [hashGrid_data g1 hb1, hashGrid_data g2 hb2] at hdata
  have hflat1 : ∀ x ∈ g1.flatten, x ≤ 9 := by
    intro x hx
    rcases List.mem_flatten.mp hx with ⟨row, hrow, hxr⟩
    exact hb1 row hrow x hxr
  have hflat2 : ∀ x ∈ g2.flatten, x ≤ 9 := by
    intro x hx
    rcases List.mem_flatten.mp hx with ⟨row, hrow, hxr⟩
    exact hb2 row hrow x hxr
  have hflat := map_digitChar_inj g1.flatten g2.flatten hflat1 hflat2 hdata
  exact flatten_inj_9x9 g1 g2 (by rw [hwf1.1, hwf2.1]) hwf1.2 hwf2.2 hflat

/-- The solved grid with one cell changed: differs from `solvedGrid1` at
(0,0). -/
def alteredGrid1 : Grid :=
  [[2, 2, 3, 4, 5, 6, 7, 8, 9],
   [4, 5, 6, 7, 8, 9, 1, 2, 3],
   [7, 8, 9, 1, 2, 3, 4, 5, 6],
   [2, 3, 4, 5, 6, 7, 8, 9, 1],
   [5, 6, 7, 8, 9, 1, 2, 3, 4],
   [8, 9, 1, 2, 3, 4, 5, 6, 7],
   [3, 4, 5, 6, 7, 8, 9, 1, 2],
   [6, 7, 8, 9, 1, 2, 3, 4, 5],
   [9, 1, 2, 3, 4, 5, 6, 7, 8]]

/-- C8 witness: two concrete grids differing in one cell produce different
hashes. -/
theorem hashGrid_deterministic_injective_witness :
    solvedGrid1 ≠ alteredGrid1 ∧ hashGrid solvedGrid1 ≠ hashGrid alteredGrid1 :=
  ⟨by decide,
    (hashGrid_deterministic_injective solvedGrid1 alteredGrid1 (by decide) (by decide)
      (by decide) (by decide)).2 (by decide)⟩

/-- Embeds the removal loop of `Generator.removeNumbers`: walk the shuffled
positions, break once enough cells are removed, clear each visited cell, and
only for the tiers hard and expert test uniqueness and restore the value on
failure.  Returns the final puzzle, the removed count and the advanced
random draw index (`Utils.getRowCol pos = (pos / 9, pos % 9)`). -/
def removeLoop (d : String) (rand : Nat → Nat) :
    List Nat → Nat → Nat → Nat → Grid → Grid × Nat × Nat
  | [], _, removed, k, puzzle => (puzzle, removed, k)
  | pos :: rest, ctr, removed, k, puzzle =>
    if ctr ≤ removed then (puzzle, removed, k)
    else if d = "hard" ∨ d = "expert" then
      match hasUniqueSolutionFastK rand k (setCell puzzle (pos / 9) (pos % 9) 0) with
      | (unique, k2) =>
        if unique then
          removeLoop d rand rest ctr (removed + 1) k2
            (setCell puzzle (pos / 9) (pos % 9) 0)
        else
          removeLoop d rand rest ctr removed k2
            (setCell (setCell puzzle (pos / 9) (pos % 9) 0) (pos / 9) (pos % 9)
              (getCell puzzle (pos / 9) (pos % 9)))
    else removeLoop d rand rest ctr (removed + 1) k
      (setCell puzzle (pos / 9) (pos % 9) 0)

/-- Embeds `Generator.removeNumbers`: one `Math.random` draw for the clue
count, a Fisher-Yates shuffle of the 81 positions, then the removal loop on
a copy of the solved grid.  Returns the puzzle and the advanced draw
index. -/
def removeNumbers (solved : Grid) (d : String) (rand : Nat → Nat) (k : Nat) :
    Grid × Nat :=
  match shuffle rand (k + 1) (List.range 81) with
  | (positions, k1) =>
    match removeLoop d rand positions (81 - getCluesCount d (rand k)) 0 k1 solved with
    | (puzzle, _, k2) => (puzzle, k2)

/-- C4 amended: for the tiers hard and expert (the code tests
`difficulty === 'hard' || difficulty === 'expert'`, so not master), each
candidate removal is validated immediately with the bounded randomized
count, and when the check fails the cleared value is written back and the
removal is not counted: the loop continues with the puzzle unchanged. -/
theorem removeLoop_checked_step (d : String) (rand : Nat → Nat) (pos : Nat)
    (rest : List Nat) (ctr removed k : Nat) (puzzle : Grid)
    (hd : d = "hard" ∨ d = "expert") (hrun : removed < ctr) :
    removeLoop d rand (pos :: rest) ctr removed k puzzle =
      (if hasUniqueSolutionFast rand k (setCell puzzle (pos / 9) (pos % 9) 0) then
        removeLoop d rand rest ctr (removed + 1)
          (hasUniqueSolutionFastK rand k (setCell puzzle (pos / 9) (pos % 9) 0)).2
          (setCell puzzle (pos / 9) (pos % 9) 0)
      else
        removeLoop d rand rest ctr removed
          (hasUniqueSolutionFastK rand k (setCell puzzle (pos / 9) (pos % 9) 0)).2
          puzzle) := by
  have hrestore : setCell (setCell puzzle (pos / 9) (pos % 9) 0) (pos / 9) (pos % 9)
      (getCell puzzle (pos / 9) (pos % 9)) = puzzle := by
    rw [setCell_setCell, setCell_getCell_self]
  have hstep : removeLoop d rand (pos :: rest) ctr removed k puzzle =
      (if ctr ≤ removed then (puzzle, removed, k)
       else if d = "hard" ∨ d = "expert" then
        match hasUniqueSolutionFastK rand k (setCell puzzle (pos / 9) (pos % 9) 0) with
        | (unique, k2) =>
          if unique then
            removeLoop d rand rest ctr (removed + 1) k2
              (setCell puzzle (pos / 9) (pos % 9) 0)
          else
            removeLoop d rand rest ctr removed k2
              (setCell (setCell puzzle (pos / 9) (pos % 9) 0) (pos / 9) (pos % 9)
                (getCell puzzle (pos / 9) (pos % 9)))
       else removeLoop d rand rest ctr (removed + 1) k
        (setCell puzzle (pos / 9) (pos % 9) 0)) := rfl
  rw [hstep, if_neg (by omega : ¬ ctr ≤ removed), if_pos hd]
  rcases hk : hasUniqueSolutionFastK rand k (setCell puzzle (pos / 9) (pos % 9) 0)
    with ⟨u, k2⟩
  have hu : hasUniqueSolutionFast rand k (setCell puzzle (pos / 9) (pos % 9) 0) = u := by
    unfold hasUniqueSolutionFast
    rw [hk]
  rw [hu]
  cases u with
  | true => rfl
  | false =>
    show removeLoop d rand rest ctr removed k2
      (setCell (setCell puzzle (pos / 9) (pos % 9) 0) (pos / 9) (pos % 9)
        (getCell puzzle (pos / 9) (pos % 9))) = _
    rw [hrestore]
    rfl

/-- Random stream that makes `getCluesCount "master"` draw 19 clues and
makes the Fisher-Yates shuffle of the 81 positions the identity (every draw
`81 - k` equals the current loop index, so every swap is a self-swap). -/
def cexRand : Nat → Nat := fun k => 81 - k

/-- State of the master-tier removal run on `solvedGrid1` after 17 removals:
cells 0..16 (row 0 and row 1 up to column 7) are cleared. -/
def G17 : Grid :=
  [[0, 0, 0, 0, 0, 0, 0, 0, 0],
   [0, 0, 0, 0, 0, 0, 0, 0, 3],
   [7, 8, 9, 1, 2, 3, 4, 5, 6],
   [2, 3, 4, 5, 6, 7, 8, 9, 1],
   [5, 6, 7, 8, 9, 1, 2, 3, 4],
   [8, 9, 1, 2, 3, 4, 5, 6, 7],
   [3, 4, 5, 6, 7, 8, 9, 1, 2],
   [6, 7, 8, 9, 1, 2, 3, 4, 5],
   [9, 1, 2, 3, 4, 5, 6, 7, 8]]

/-- The same run after the 18th removal (position 17, cell (1,8)): rows 0
and 1 fully cleared.  This grid admits more than one solution (rows 0 and 1
of any completion can be recombined), so a validated removal would have to
be undone here. -/
def G18 : Grid :=
  [[0, 0, 0, 0, 0, 0, 0, 0, 0],
   [0, 0, 0, 0, 0, 0, 0, 0, 0],
   [7, 8, 9, 1, 2, 3, 4, 5, 6],
   [2, 3, 4, 5, 6, 7, 8, 9, 1],
   [5, 6, 7, 8, 9, 1, 2, 3, 4],
   [8, 9, 1, 2, 3, 4, 5, 6, 7],
   [3, 4, 5, 6, 7, 8, 9, 1, 2],
   [6, 7, 8, 9, 1, 2, 3, 4, 5],
   [9, 1, 2, 3, 4, 5, 6, 7, 8]]

/-- C4 counterexample: at tier master, `removeNumbers` does not validate
removals.  On the solved input `solvedGrid1` with the stream `cexRand`
(identity position order, 62 cells to remove), the run reaches state
(`G17`, 17 removed), then processes position 17 = cell (1,8): the cleared
grid `G18` admits more than one solution (`countSolutions G18 2 = 2`), yet
the loop moves to (`G18`, 18 removed) without restoring the value, and the
final puzzle still has cell (1,8) empty.  The claim's immediate validation
and restore happen only for the tiers hard and expert. -/
theorem removeNumbers_master_unchecked_cex :
    isSolved solvedGrid1 = true ∧
    (shuffle cexRand 1 (List.range 81)).1 = List.range 81 ∧
    81 - getCluesCount "master" (cexRand 0) = 62 ∧
    removeLoop "master" cexRand (List.range 81) 62 0 81 solvedGrid1 =
      removeLoop "master" cexRand ((List.range 81).drop 17) 62 17 81 G17 ∧
    removeLoop "master" cexRand ((List.range 81).drop 17) 62 17 81 G17 =
      removeLoop "master" cexRand ((List.range 81).drop 18) 62 18 81 G18 ∧
    countSolutions G18 2 = 2 ∧
    getCell (removeNumbers solvedGrid1 "master" cexRand 0).1 1 8 = 0 :=
  ⟨by decide, by decide, by decide, by decide, by decide, by decide, by decide⟩

/-- C4 witness for the amended claim: a concrete hard-tier step whose
uniqueness check fails (clearing cell (1,8) of `G17` yields `G18`, which
has two completions within the bound), so the loop keeps the puzzle and the
removed count unchanged. -/
theorem removeLoop_checked_step_witness :
    ("hard" = "hard" ∨ "hard" = "expert") ∧ 17 < 62 ∧
    hasUniqueSolutionFast (fun _ => 0) 0 (setCell G17 (17 / 9) (17 % 9) 0) = false ∧
    removeLoop "hard" (fun _ => 0) [17] 62 17 0 G17 =
      (if hasUniqueSolutionFast (fun _ => 0) 0 (setCell G17 (17 / 9) (17 % 9) 0) then
        removeLoop "hard" (fun _ => 0) [] 62 18
          (hasUniqueSolutionFastK (fun _ => 0) 0 (setCell G17 (17 / 9) (17 % 9) 0)).2
          (setCell G17 (17 / 9) (17 % 9) 0)
      else
        removeLoop "hard" (fun _ => 0) [] 62 17
          (hasUniqueSolutionFastK (fun _ => 0) 0 (setCell G17 (17 / 9) (17 % 9) 0)).2
          G17) :=
  ⟨Or.inl rfl, by decide, by decide,
    removeLoop_checked_step "hard" (fun _ => 0) 17 [] 62 17 0 G17 (Or.inl rfl)
      (by decide)⟩

/-- The all-empty 9x9 grid (`Array(9).fill(0).map(() => Array(9).fill(0))`). -/
def emptyGrid : Grid := List.replicate 9 (List.replicate 9 0)

/-- Writes a list of nine digits into the 3x3 box at (sr, sc), row-major,
as `Generator.fillBox` does with its incrementing index. -/
def placeBox (g : Grid) (sr sc : Nat) (nums : List Nat) : Grid :=
  (List.range 9).foldl
    (fun acc i => setCell acc (sr + i / 3) (sc + i % 3) ((nums.get? i).getD 0)) g

/-- Embeds `Generator.fillBox`: shuffle 1..9 and place the result. -/
def fillBox (rand : Nat → Nat) (k : Nat) (g : Grid) (sr sc : Nat) : Grid × Nat :=
  match shuffle rand k digits with
  | (numbers, k1) => (placeBox g sr sc numbers, k1)

/-- Embeds `Generator.fillDiagonalBoxes`: boxes at (0,0), (3,3), (6,6). -/
def fillDiagonalBoxes (rand : Nat → Nat) (k : Nat) (g : Grid) : Grid × Nat :=
  match fillBox rand k g 0 0 with
  | (g1, k1) =>
    match fillBox rand k1 g1 3 3 with
    | (g2, k2) => fillBox rand k2 g2 6 6

/-- Embeds `Generator.generateSolvedGrid`: seed the diagonal boxes of an
empty grid, then complete with `Solver.solve` (its boolean is ignored). -/
def generateSolvedGrid (rand : Nat → Nat) (k : Nat) : Grid × Nat :=
  match fillDiagonalBoxes rand k emptyGrid with
  | (g1, k1) => ((solve g1).2, k1)

/-- Puzzle produced by one generation attempt that starts at draw index
`k0`: the solved grid is completed and then thinned by `removeNumbers`
(the JS lines `const solvedGrid = this.generateSolvedGrid();
const puzzle = this.removeNumbers(solvedGrid, difficulty)`). -/
def attemptOut (rand : Nat → Nat) (d : String) (k0 : Nat) : Grid :=
  (removeNumbers (generateSolvedGrid rand k0).1 d rand
    (generateSolvedGrid rand k0).2).1

/-- Advance of the random draw index over one full generation attempt
(one solved grid plus one removal pass). -/
def attemptStep (rand : Nat → Nat) (d : String) (k0 : Nat) : Nat :=
  (removeNumbers (generateSolvedGrid rand k0).1 d rand
    (generateSolvedGrid rand k0).2).2

/-- Embeds the attempt loop of `Generator.generate`: up to `n` attempts,
each generating a solved grid, removing numbers, and returning the puzzle
as soon as `Solver.hasUniqueSolution` accepts it. -/
def generateAttempts (rand : Nat → Nat) (d : String) : Nat → Nat → Option Grid × Nat
  | 0, k => (none, k)
  | n + 1, k =>
    if hasUniqueSolution (attemptOut rand d k) then
      (some (attemptOut rand d k), attemptStep rand d k)
    else generateAttempts rand d n (attemptStep rand d k)

/-- Embeds `Generator.generate`: ten attempts, and when every one fails the
uniqueness check, one final fresh generation is returned with no check
(the code path after the loop: `generateSolvedGrid` then `removeNumbers`). -/
def generate (d : String) (rand : Nat → Nat) (k : Nat) : Grid :=
  match generateAttempts rand d 10 k with
  | (some puzzle, _) => puzzle
  | (none, k10) => attemptOut rand d k10

/-- Random draw index at the start of attempt `i` of the generation loop. -/
def attemptK (rand : Nat → Nat) (d : String) (k : Nat) : Nat → Nat
  | 0 => k
  | i + 1 => attemptStep rand d (attemptK rand d k i)

/-- Candidate puzzle produced by attempt `i` of the generation loop. -/
def attemptPuzzle (rand : Nat → Nat) (d : String) (k i : Nat) : Grid :=
  attemptOut rand d (attemptK rand d k i)

theorem attemptK_shift (rand : Nat → Nat) (d : String) (k : Nat) : ∀ i,
    attemptK rand d (attemptStep rand d k) i = attemptK rand d k (i + 1) := by
  intro i
  induction i with
  | zero => simp only [attemptK]
  | succ n ih => simp only [attemptK, ih]

theorem attemptPuzzle_shift (rand : Nat → Nat) (d : String) (k i : Nat) :
    attemptPuzzle rand d (attemptStep rand d k) i = attemptPuzzle rand d k (i + 1) := by
  unfold attemptPuzzle
  rw [attemptK_shift]

/-- The attempt loop returns the first candidate accepted by the uniqueness
check, or `none` with the draw index advanced past all `n` attempts. -/
theorem generateAttempts_spec (rand : Nat → Nat) (d : String) : ∀ (n k : Nat),
    generateAttempts rand d n k =
      (match (List.range n).find?
          (fun i => hasUniqueSolution (attemptPuzzle rand d k i)) with
       | some i => (some (attemptPuzzle rand d k i), attemptK rand d k (i + 1))
       | none => (none, attemptK rand d k n)) := by
  intro n
  induction n with
  | zero => intro k; rfl
  | succ n ih =>
    intro k
    rw [List.range_succ_eq_map]
    have hout : attemptPuzzle rand d k 0 = attemptOut rand d k := rfl
    show (if hasUniqueSolution (attemptOut rand d k) then
        (some (attemptOut rand d k), attemptStep rand d k)
      else generateAttempts rand d n (attemptStep rand d k)) = _
    by_cases h0 : hasUniqueSolution (attemptOut rand d k) = true
    · rw [if_pos h0, List.find?_cons_of_pos _ (by rw [hout]; exact h0)]
      show _ = (some (attemptPuzzle rand d k 0), attemptK rand d k (0 + 1))
      rw [hout]
      have hk1 : attemptK rand d k (0 + 1) = attemptStep rand d k := rfl
      rw [hk1]
    · rw [if_neg h0, ih (attemptStep rand d k),
        List.find?_cons_of_neg _ (by rw [hout]; exact h0)]
      have hfun : ((fun i => hasUniqueSolution (attemptPuzzle rand d k i)) ∘ Nat.succ) =
          (fun i => hasUniqueSolution (attemptPuzzle rand d (attemptStep rand d k) i)) := by
        funext i
        rw [Function.comp_apply, attemptPuzzle_shift]
      rw [List.find?_map, hfun]
      cases hf : (List.range n).find?
          (fun i => hasUniqueSolution (attemptPuzzle rand d (attemptStep rand d k) i)) with
      | none =>
        show (none, attemptK rand d (attemptStep rand d k) n) = _
        rw [attemptK_shift]
        rfl
      | some i =>
        show (some (attemptPuzzle rand d (attemptStep rand d k) i),
          attemptK rand d (attemptStep rand d k) (i + 1)) = _
        rw [attemptPuzzle_shift, attemptK_shift]
        rfl

/-- C5: `generate` never throws: it returns the first of the ten attempt
candidates passing the uniqueness check when one exists, and when every
attempt fails the check (the `find?` is `none`, equivalently all ten
candidates are rejected) it falls back to one more fresh generation — the
last generated candidate puzzle, returned without any uniqueness check. -/
theorem generate_fallback_unverified (d : String) (rand : Nat → Nat) (k : Nat) :
    (((List.range 10).find?
        (fun i => hasUniqueSolution (attemptPuzzle rand d k i)) = none) ↔
      (List.range 10).all
        (fun i => !hasUniqueSolution (attemptPuzzle rand d k i)) = true) ∧
    generate d rand k =
      (match (List.range 10).find?
          (fun i => hasUniqueSolution (attemptPuzzle rand d k i)) with
       | some i => attemptPuzzle rand d k i
       | none => attemptOut rand d (attemptK rand d k 10)) := by
  constructor
  · rw [List.find?_eq_none, List.all_eq_true]
    simp only [Bool.not_eq_true, Bool.not_eq_true']
  · unfold generate
    rw [generateAttempts_spec]
    cases hf : (List.range 10).find?
        (fun i => hasUniqueSolution (attemptPuzzle rand d k i)) with
    | some i => rfl
    | none => rfl

end Sudoku
